import Mathlib

/-!
Shallow embedding of funrotate (src/main.rs), a log-rotation program.

Modelling conventions:
* The filesystem is a finite association list from file names to contents.
  File contents are modelled as `List Nat` (byte sequences).  A Rust
  `String` value is modelled as a `List Nat` of Unicode scalar values
  (code points): `read_to_string` is `utf8Decode` (strict UTF-8
  validation, `Err` on invalid bytes), `String::as_bytes` is
  `utf8Encode`, `str::bytes()` of a line is `utf8Encode` of its code
  points, and `b as char` is the code point `b` itself.
* A Rust panic (`expect`/`unwrap`) or propagated `Err` is modelled as
  `Option.none` in the function's result.
* The system clock `Utc::now()` is an explicit parameter, given in
  nanoseconds since the Unix epoch; `NaiveDateTime` values are integers of
  seconds since the Unix epoch (every `NaiveDateTime` the program builds
  has zero sub-second part).
* The CSV layer of the state store is modelled at the parsed level: a
  store file is `Option (List (List String))` (`none` = the file does not
  exist, rows are lists of fields; quoting/escaping is below this level of
  abstraction).  The CSV reader and writer both run with the default
  header handling of the `csv` crate: the first row is a header, data rows
  must have the same number of fields as the header, and the writer emits
  the header row derived from the `LastRotation` struct before the first
  record.
-/

namespace Funrotate

/-- A filesystem: an association list from file names to byte contents. -/
abbrev FS := List (String × List Nat)

/-- Look up the contents of a file. -/
def fsGet : FS → String → Option (List Nat)
  | [], _ => none
  | (k, c) :: rest, n => if k = n then some c else fsGet rest n

/-- Write a file: overwrite the binding if the name is present, else append. -/
def fsSet : FS → String → List Nat → FS
  | [], n, v => [(n, v)]
  | (k, c) :: rest, n, v =>
    if k = n then (n, v) :: rest else (k, c) :: fsSet rest n v

/-- The file names present in a filesystem. -/
def fsKeys (fs : FS) : List String := fs.map Prod.fst

/-- Well-formedness of the filesystem model: names are distinct. -/
def keysNodup (fs : FS) : Prop := (fsKeys fs).Nodup

instance (fs : FS) : Decidable (keysNodup fs) := by
  unfold keysNodup; infer_instance

/-- Whether a name matches the glob pattern `path ++ "*"`: `path` must be a
literal prefix and the remaining suffix may not contain a path separator
(`*` does not cross `/`). -/
def globMatch (path name : String) : Bool :=
  path.data.isPrefixOf name.data &&
    !((name.data.drop path.data.length).contains '/')

/-- Lexicographic comparison of character lists by code point.  This is
the order `Ord for String` in Rust (byte-wise lexicographic on UTF-8,
which coincides with code-point order). -/
def strLtB : List Char → List Char → Bool
  | [], [] => false
  | [], _ :: _ => true
  | _ :: _, [] => false
  | a :: as, b :: bs =>
    if a.toNat < b.toNat then true
    else if b.toNat < a.toNat then false
    else strLtB as bs

/-- Lexicographic order on strings (Rust `Ord for String`). -/
def strLt (s t : String) : Bool := strLtB s.data t.data

/-- Insert a string into a lexicographically sorted list. -/
def insertSorted (s : String) : List String → List String
  | [] => [s]
  | t :: ts => if strLt s t then s :: t :: ts else t :: insertSorted s ts

/-- Sort a list of strings lexicographically (the order of `files.sort()`
in the source; `glob` also yields names in this order). -/
def sortStrings (l : List String) : List String := l.foldr insertSorted []

/-- The sorted list of existing files matching the pattern `path ++ "*"`
(the `files` vector of `rotate_file` before the extra slot is pushed). -/
def globFiles (fs : FS) (path : String) : List String :=
  sortStrings ((fsKeys fs).filter (fun n => globMatch path n))

/-- RotationStrategy from src/main.rs. -/
inductive RotationStrategy where
  | CopyTruncate
  | Copy
  deriving DecidableEq

/-- STRATEGY from src/main.rs: the phf map from strategy names. -/
def STRATEGY : String → Option RotationStrategy
  | "copy" => some RotationStrategy.CopyTruncate
  | "copytruncate" => some RotationStrategy.CopyTruncate
  | "create" => some RotationStrategy.CopyTruncate
  | "nocopytruncate" => some RotationStrategy.Copy
  | _ => none

/-- RotationInterval from src/main.rs. -/
inductive RotationInterval where
  | Hourly
  | Daily
  | Weekly
  | Monthly
  deriving DecidableEq

/-- INTERVALS from src/main.rs: the phf map from interval names. -/
def INTERVALS : String → Option RotationInterval
  | "hourly" => some RotationInterval.Hourly
  | "daily" => some RotationInterval.Daily
  | "weekly" => some RotationInterval.Weekly
  | "monthly" => some RotationInterval.Monthly
  | _ => none

/-- UTF-8 encoding of one Unicode scalar value (the bytes Rust emits when
a `char` is pushed onto a `String`). -/
def utf8EncodeChar (c : Nat) : List Nat :=
  if c < 128 then [c]
  else if c < 2048 then [192 + c / 64, 128 + c % 64]
  else if c < 65536 then [224 + c / 4096, 128 + c / 64 % 64, 128 + c % 64]
  else [240 + c / 262144, 128 + c / 4096 % 64, 128 + c / 64 % 64,
    128 + c % 64]

/-- UTF-8 encoding of a sequence of Unicode scalar values
(`String::as_bytes` / `str::bytes()` on the modelled string). -/
def utf8Encode (cps : List Nat) : List Nat :=
  (cps.map utf8EncodeChar).flatten

/-- Strict UTF-8 decoding of a byte sequence into Unicode scalar values:
rejects continuation-byte leads, overlong forms, surrogates, values past
U+10FFFF and truncated sequences — the validation `read_to_string`
performs, whose failure is an `Err`. -/
def utf8Decode : List Nat → Option (List Nat)
  | [] => some []
  | b0 :: rest =>
    if b0 < 128 then
      (utf8Decode rest).map (fun cs => b0 :: cs)
    else if b0 < 194 then none
    else if b0 < 224 then
      match rest with
      | b1 :: rest1 =>
        if 128 ≤ b1 ∧ b1 < 192 then
          (utf8Decode rest1).map (fun cs => ((b0 - 192) * 64 + (b1 - 128)) :: cs)
        else none
      | [] => none
    else if b0 < 240 then
      match rest with
      | b1 :: b2 :: rest2 =>
        if (128 ≤ b1 ∧ b1 < 192) ∧ (128 ≤ b2 ∧ b2 < 192) then
          let c := (b0 - 224) * 4096 + (b1 - 128) * 64 + (b2 - 128)
          if c < 2048 ∨ (55296 ≤ c ∧ c < 57344) then none
          else (utf8Decode rest2).map (fun cs => c :: cs)
        else none
      | _ => none
    else if b0 < 245 then
      match rest with
      | b1 :: b2 :: b3 :: rest3 =>
        if (128 ≤ b1 ∧ b1 < 192) ∧ (128 ≤ b2 ∧ b2 < 192) ∧
            (128 ≤ b3 ∧ b3 < 192) then
          let c := (b0 - 240) * 262144 + (b1 - 128) * 4096 +
            (b2 - 128) * 64 + (b3 - 128)
          if c < 65536 ∨ 1114111 < c then none
          else (utf8Decode rest3).map (fun cs => c :: cs)
        else none
      | _ => none
    else none

/-- Split a code-point sequence on a separator (`"ab\nc"` gives
`[[a,b],[c]]`, a trailing separator yields a trailing empty chunk). -/
def splitOnByte (b : Nat) : List Nat → List (List Nat)
  | [] => [[]]
  | c :: cs =>
    let r := splitOnByte b cs
    if c = b then [] :: r
    else
      match r with
      | [] => [[c]]
      | h :: t => (c :: h) :: t

/-- Rust `str::lines()` on a code-point sequence: split on `\n` (code
point 10), the final line terminator is optional, and a trailing `\r`
(code point 13) is stripped from each line. -/
def rustLines (cs : List Nat) : List (List Nat) :=
  match cs with
  | [] => []
  | _ =>
    let parts :=
      if cs.getLast? = some 10 then (splitOnByte 10 cs).dropLast
      else splitOnByte 10 cs
    parts.map (fun l => if l.getLast? = some 13 then l.dropLast else l)

/-- The inner push/pop dance of `duplicate_bytes_in_lines` for one byte
`b` of a line: `new_contents.push(b as char)` four times, `pop()` twice,
one push, one pop — net effect: the code point `b` twice.  `acc` is the
`new_contents` string as code points; a push appends the code point `b`
(that is what `b as char` is) and a pop removes the last code point. -/
def dupByte (acc : List Nat) (b : Nat) : List Nat :=
  let a1 := acc ++ [b]
  let a2 := a1 ++ [b]
  let a3 := a2 ++ [b]
  let a4 := a3 ++ [b]
  let a5 := a4.dropLast
  let a6 := a5.dropLast
  let a7 := a6 ++ [b]
  a7.dropLast

/-- duplicate_bytes_in_lines from src/main.rs, on a string given as code
points: for each line, iterate over the line's UTF-8 bytes
(`log.bytes()` re-encodes the line) and push each byte as a `char` (net:
twice), re-inserting the line separators. -/
def duplicate_bytes_in_lines (contents : List Nat) : List Nat :=
  let new_line_end := contents.getLast? = some 10
  let lines := rustLines contents
  let lines_count := lines.length
  let body := lines.enum.foldl
    (fun nc p =>
      let nc2 := (utf8Encode p.2).foldl dupByte nc
      if lines_count - 1 ≠ p.1 then nc2 ++ [10] else nc2)
    []
  if new_line_end then body ++ [10] else body

/-- mess_up_file from src/main.rs: opens `filename`, reads it into a
string (strict UTF-8 validation), duplicates its bytes line by line, and
writes the resulting string's bytes to `filename ++ ".zip"`.  When the
file cannot be opened, or its contents are not valid UTF-8
(`read_to_string` fails), the error is returned before any file is
created; the sole caller only logs it, so the filesystem is left
unchanged in those cases. -/
def mess_up_file (fs : FS) (filename : String) : FS :=
  let compressed_filename := filename ++ ".zip"
  match fsGet fs filename with
  | none => fs
  | some bytes =>
    match utf8Decode bytes with
    | none => fs
    | some contents =>
      fsSet fs compressed_filename
        (utf8Encode (duplicate_bytes_in_lines contents))

/-- fs::copy: read `src` and write its bytes to `dst`; `none` models the
`expect("cannot copy files")` panic when the source cannot be read. -/
def copyFile (fs : FS) (src dst : String) : Option FS :=
  (fsGet fs src).map (fun c => fsSet fs dst c)

/-- The `while i != 0` copy loop of `rotate_file`: for `i` from the given
start down to 1, copy `files[i-1]` into `files[i]`. -/
def shiftLoop (files : List String) : FS → Nat → Option FS
  | fs, 0 => some fs
  | fs, i + 1 =>
    match copyFile fs (files.getD i "") (files.getD (i + 1) "") with
    | none => none
    | some fs2 => shiftLoop files fs2 i

/-- The `files` vector of `rotate_file` after the conditional push: when
fewer matches than `max_files` exist, one extra slot name
`path ++ "." ++ count` is appended. -/
def rotFiles (fs : FS) (path : String) (max_files : Nat) : List String :=
  let files := globFiles fs path
  if files.length < max_files then
    files ++ [path ++ "." ++ toString files.length]
  else files

/-- rotate_file from src/main.rs.  `none` models a panic (copy failure or
an invalid strategy name).  `globFiles fs path` is the matched `files`
vector and its length the `files_count` of the source; `rotFiles` is the
vector after the conditional extra-slot push. -/
def rotate_file (fs : FS) (path : String) (max_files : Nat)
    (strategy : String) (compress : Bool) : Option FS :=
  if (globFiles fs path).length = 0 then some fs
  else
    match shiftLoop (rotFiles fs path max_files)
        (if compress && decide (max_files ≤ (globFiles fs path).length) then
          mess_up_file fs path
        else fs)
        ((rotFiles fs path max_files).length - 1) with
    | none => none
    | some fs2 =>
      match STRATEGY strategy with
      | some RotationStrategy.CopyTruncate => some (fsSet fs2 path [])
      | some RotationStrategy.Copy => some fs2
      | none => none

/-! ## Time and calendar model

`NaiveDateTime` values are seconds since the Unix epoch (`Int`); civil
calendar conversions follow the proleptic Gregorian calendar that chrono
uses. -/

/-- Days since the Unix epoch of a civil date (proleptic Gregorian). -/
def daysFromCivil (y0 : Int) (m d : Nat) : Int :=
  let y := if m ≤ 2 then y0 - 1 else y0
  let era := y.fdiv 400
  let yoe := (y - era * 400).toNat
  let doy := (153 * (if 2 < m then m - 3 else m + 9) + 2) / 5 + d - 1
  let doe := yoe * 365 + yoe / 4 - yoe / 100 + doy
  era * 146097 + (doe : Int) - 719468

/-- Civil date (year, month, day) of a count of days since the Unix epoch. -/
def civilFromDays (z0 : Int) : Int × Nat × Nat :=
  let z := z0 + 719468
  let era := z.fdiv 146097
  let doe := (z - era * 146097).toNat
  let yoe := (doe - doe / 1460 + doe / 36524 - doe / 146096) / 365
  let y : Int := (yoe : Int) + era * 400
  let doy := doe - (365 * yoe + yoe / 4 - yoe / 100)
  let mp := (5 * doy + 2) / 153
  let d := doy - (153 * mp + 2) / 5 + 1
  let m := if mp < 10 then mp + 3 else mp - 9
  (if m ≤ 2 then y + 1 else y, m, d)

/-- Seconds since the Unix epoch of a civil date-time. -/
def civilToSecs (y : Int) (m d h mi s : Nat) : Int :=
  daysFromCivil y m d * 86400 + (h * 3600 + mi * 60 + s : Nat)

/-- Gregorian leap year test. -/
def isLeapYear (y : Int) : Bool :=
  y % 4 = 0 && (y % 100 ≠ 0 || y % 400 = 0)

/-- Number of days of a month in a year. -/
def daysInMonth (y : Int) (m : Nat) : Nat :=
  if m = 2 then (if isLeapYear y then 29 else 28)
  else if m = 4 ∨ m = 6 ∨ m = 9 ∨ m = 11 then 30
  else 31

/-- Numeric value of a run of ASCII digit characters. -/
def digitsToNat (ds : List Char) : Nat :=
  ds.foldl (fun a c => a * 10 + (c.toNat - 48)) 0

/-- NaiveDateTime::parse_from_str with format `"%Y-%m-%d %H:%M"`
(ROTATION_TIME_FORMAT): a digit run for the year, `-`, a month of at most
two digits, `-`, a day of at most two digits, a space, an hour of at most
two digits, `:`, a minute of at most two digits, nothing trailing; the
date must be a valid civil date and the time of day in range.  (The
chrono edge cases of signed or astronomically large years and of flexible
whitespace are outside the model.)  Returns seconds since the epoch, or
`none` when parsing fails. -/
def parseRotationTime (s : String) : Option Int :=
  let cs := s.data
  let yp := cs.span Char.isDigit
  match yp.1 with
  | [] => none
  | _ :: _ =>
    let y : Int := digitsToNat yp.1
    match yp.2 with
    | '-' :: r2 =>
      let mp := r2.span Char.isDigit
      if mp.1.length = 0 ∨ 2 < mp.1.length then none
      else
        let m := digitsToNat mp.1
        match mp.2 with
        | '-' :: r4 =>
          let dp := r4.span Char.isDigit
          if dp.1.length = 0 ∨ 2 < dp.1.length then none
          else
            let d := digitsToNat dp.1
            match dp.2 with
            | ' ' :: r6 =>
              let hp := r6.span Char.isDigit
              if hp.1.length = 0 ∨ 2 < hp.1.length then none
              else
                let h := digitsToNat hp.1
                match hp.2 with
                | ':' :: r8 =>
                  let minp := r8.span Char.isDigit
                  if minp.1.length = 0 ∨ 2 < minp.1.length then none
                  else
                    let mi := digitsToNat minp.1
                    if minp.2 = [] ∧ 1 ≤ m ∧ m ≤ 12 ∧ 1 ≤ d ∧
                        d ≤ daysInMonth y m ∧ h ≤ 23 ∧ mi ≤ 59 then
                      some (civilToSecs y m d h mi 0)
                    else none
                | _ => none
            | _ => none
        | _ => none
    | _ => none

/-- Zero-pad the decimal representation of a number to a width. -/
def padNum (w n : Nat) : String :=
  let s := toString n
  String.mk (List.replicate (w - s.length) '0') ++ s

/-- DateTime formatting with ROTATION_TIME_FORMAT (`"%Y-%m-%d %H:%M"`),
given seconds since the Unix epoch. -/
def formatTime (t : Int) : String :=
  let days := t.fdiv 86400
  let secs := (t - days * 86400).toNat
  let ymd := civilFromDays days
  let ys := if ymd.1 < 0 then "-" ++ padNum 4 (-ymd.1).toNat else padNum 4 ymd.1.toNat
  ys ++ "-" ++ padNum 2 ymd.2.1 ++ "-" ++ padNum 2 ymd.2.2 ++ " " ++
    padNum 2 (secs / 3600) ++ ":" ++ padNum 2 (secs % 3600 / 60)

/-- The chrono `Duration` added for each interval, in seconds
(`Duration::hours(1)`, `Duration::days(1)`, `Duration::days(7)`,
`Duration::days(30)`). -/
def intervalDuration : RotationInterval → Int
  | RotationInterval.Hourly => 3600
  | RotationInterval.Daily => 86400
  | RotationInterval.Weekly => 7 * 86400
  | RotationInterval.Monthly => 30 * 86400

/-- is_rotation_triggered_on_time from src/main.rs.  `rotation_time` is a
`NaiveDateTime` in seconds; `nowNs` is `Utc::now()` in nanoseconds, which
the source truncates to whole seconds via
`NaiveDateTime::from_timestamp(Utc::now().timestamp(), 0)`.  `none`
models the `expect("invalid interval name")` panic. -/
def is_rotation_triggered_on_time (rotation_time : Int) (interval : String)
    (nowNs : Int) : Option Bool :=
  (INTERVALS interval).map (fun i =>
    let next_rotation_time := rotation_time + intervalDuration i
    let now := nowNs.fdiv 1000000000
    decide (0 ≤ now - next_rotation_time))

/-- is_rotation_triggered_due_to_size from src/main.rs: the metadata length
of the file at `path` compared strictly against the configured size.
`none` models the `expect("cannot read file metadata")` panic when the
file is missing. -/
def is_rotation_triggered_due_to_size (fs : FS) (path : String)
    (size : Nat) : Option Bool :=
  (fsGet fs path).map (fun c => decide (size < c.length))

/-! ## RotationRecorder -/

/-- RotationRecorder from src/main.rs: the map from paths to
last-rotation timestamp strings, plus the dirty flag.  (`HashMap`
iteration order is modelled by association-list order.) -/
structure RotationRecorder where
  entries : List (String × String)
  updated : Bool
  deriving DecidableEq

/-- Lookup in the entries map (`HashMap::get`). -/
def entriesGet : List (String × String) → String → Option String
  | [], _ => none
  | (k, v) :: rest, n => if k = n then some v else entriesGet rest n

/-- Insert into the entries map (`HashMap::insert`: overwrite or add). -/
def entriesInsert : List (String × String) → String → String → List (String × String)
  | [], n, v => [(n, v)]
  | (k, c) :: rest, n, v =>
    if k = n then (n, v) :: rest else (k, c) :: entriesInsert rest n v

/-- Deserializing one CSV record into a `LastRotation` struct: exactly two
fields. -/
def parseRow (row : List String) : Option (String × String) :=
  match row with
  | [p, t] => some (p, t)
  | _ => none

/-- RotationRecorder::new from src/main.rs, as a function of the state
file.  `none` models the propagated error (and `main` then exits with
status 1): a missing file makes `from_path` fail, a row whose field count
differs from the header row fails at `records()`, and a row that does not
deserialize into two fields fails at `deserialize`. -/
def RotationRecorder.new (file : Option (List (List String))) :
    Option RotationRecorder :=
  match file with
  | none => none
  | some [] => some ⟨[], false⟩
  | some (header :: rows) =>
    if rows.all (fun r => r.length = header.length) then
      (rows.mapM parseRow).map (fun prs =>
        ⟨prs.foldl (fun es pt => entriesInsert es pt.1 pt.2) [], false⟩)
    else none

/-- The sentinel "never rotated" timestamp
`NaiveDate::from_ymd(1999, 1, 1).and_hms(1, 2, 3)` in seconds since the
Unix epoch. -/
def sentinelTime : Int := civilToSecs 1999 1 1 1 2 3

/-- RotationRecorder::last_rotation_time from src/main.rs.  `none` models
the `unwrap()` panic when a stored timestamp string fails to parse. -/
def RotationRecorder.last_rotation_time (r : RotationRecorder)
    (path : String) : Option Int :=
  match entriesGet r.entries path with
  | some time => parseRotationTime time
  | none => some sentinelTime

/-- RotationRecorder.update_rotation_time from src/main.rs:
store the formatted timestamp and set the dirty flag. -/
def RotationRecorder.update_rotation_time (r : RotationRecorder)
    (path : String) (rotation_time : Int) : RotationRecorder :=
  ⟨entriesInsert r.entries path (formatTime rotation_time), true⟩

/-- RotationRecorder.save from src/main.rs, as a function from the current
state file to the new state file: when `updated` is set it returns `Ok`
immediately and the file is left as it was; otherwise it truncates the
file and writes every entry (the CSV writer emits the header row before
the first record, and nothing at all when there are no records). -/
def RotationRecorder.save (r : RotationRecorder)
    (file : Option (List (List String))) : Option (List (List String)) :=
  if r.updated then file
  else some
    (match r.entries with
     | [] => []
     | _ => ["path", "last_rotation"] :: r.entries.map (fun e => [e.1, e.2]))

/-! ## Order lemmas for the string comparison -/

theorem strDataInj {s t : String} (h : s.data = t.data) : s = t := by
  cases s; cases t; exact congrArg String.mk h

theorem charToNatInj {a b : Char} (h : a.toNat = b.toNat) : a = b := by
  have h2 := congrArg Char.ofNat h
  rwa [Char.ofNat_toNat, Char.ofNat_toNat] at h2

theorem strLtB_irrefl : ∀ l : List Char, strLtB l l = false := by
  intro l
  induction l with
  | nil => rfl
  | cons a as ih => simp [strLtB, ih]

theorem strLtB_cons_iff {x y : Char} {xs ys : List Char} :
    strLtB (x :: xs) (y :: ys) = true ↔
      x.toNat < y.toNat ∨ (x.toNat = y.toNat ∧ strLtB xs ys = true) := by
  simp only [strLtB]
  by_cases h1 : x.toNat < y.toNat
  · simp [h1]
  · by_cases h2 : y.toNat < x.toNat
    · simp [h1, h2]
      omega
    · simp [h1, h2]
      omega

theorem strLtB_trans : ∀ {a b c : List Char},
    strLtB a b = true → strLtB b c = true → strLtB a c = true := by
  intro a
  induction a with
  | nil =>
    intro b c hab hbc
    cases b with
    | nil => simp [strLtB] at hab
    | cons y ys =>
      cases c with
      | nil => simp [strLtB] at hbc
      | cons z zs => rfl
  | cons x xs ih =>
    intro b c hab hbc
    cases b with
    | nil => simp [strLtB] at hab
    | cons y ys =>
      cases c with
      | nil => simp [strLtB] at hbc
      | cons z zs =>
        rw [strLtB_cons_iff] at hab hbc ⊢
        rcases hab with h1 | ⟨h1, h1t⟩ <;> rcases hbc with h2 | ⟨h2, h2t⟩
        · exact Or.inl (by omega)
        · exact Or.inl (by omega)
        · exact Or.inl (by omega)
        · exact Or.inr ⟨by omega, ih h1t h2t⟩

theorem strLtB_eq_of_not : ∀ {a b : List Char},
    strLtB a b = false → strLtB b a = false → a = b := by
  intro a
  induction a with
  | nil =>
    intro b hab _
    cases b with
    | nil => rfl
    | cons y ys => simp [strLtB] at hab
  | cons x xs ih =>
    intro b hab hba
    cases b with
    | nil => simp [strLtB] at hba
    | cons y ys =>
      simp only [strLtB] at hab hba
      by_cases h1 : x.toNat < y.toNat
      · simp [h1] at hab
      · by_cases h2 : y.toNat < x.toNat
        · simp [h1, h2] at hba
        · simp [h1, h2] at hab hba
          have hx : x = y := charToNatInj (by omega)
          rw [hx, ih hab hba]

theorem strLtB_of_isPrefixOf : ∀ {a b : List Char},
    a.isPrefixOf b = true → a ≠ b → strLtB a b = true := by
  intro a
  induction a with
  | nil =>
    intro b _ hne
    cases b with
    | nil => exact absurd rfl hne
    | cons y ys => rfl
  | cons x xs ih =>
    intro b hpre hne
    cases b with
    | nil => simp [List.isPrefixOf] at hpre
    | cons y ys =>
      simp only [List.isPrefixOf, Bool.and_eq_true, beq_iff_eq] at hpre
      obtain ⟨rfl, hpre2⟩ := hpre
      simp only [strLtB, lt_self_iff_false, if_false]
      exact ih hpre2 (fun h => hne (by rw [h]))

theorem strLt_trans {a b c : String} (h1 : strLt a b = true)
    (h2 : strLt b c = true) : strLt a c = true :=
  strLtB_trans h1 h2

theorem strLt_flip {s t : String} (h : strLt s t = false) (hne : t ≠ s) :
    strLt t s = true := by
  by_contra h2
  exact hne (strDataInj (strLtB_eq_of_not (Bool.eq_false_iff.mpr h2) h))

theorem strLt_ne {s t : String} (h : strLt s t = true) : s ≠ t := by
  intro he
  rw [he] at h
  simp [strLt, strLtB_irrefl] at h

/-! ## Lemmas about `insertSorted` and `sortStrings` -/

theorem mem_insertSorted {a s : String} : ∀ {l : List String},
    a ∈ insertSorted s l ↔ a = s ∨ a ∈ l := by
  intro l
  induction l with
  | nil => simp [insertSorted]
  | cons t ts ih =>
    simp only [insertSorted]
    split
    · simp
    · simp only [List.mem_cons, ih]
      tauto

theorem mem_sortStrings {a : String} : ∀ {l : List String},
    a ∈ sortStrings l ↔ a ∈ l := by
  intro l
  induction l with
  | nil => simp [sortStrings]
  | cons t ts ih =>
    show a ∈ insertSorted t (sortStrings ts) ↔ _
    rw [mem_insertSorted]
    simp [ih]

theorem pairwise_insertSorted {s : String} : ∀ {l : List String},
    l.Pairwise (fun a b => strLt a b = true) → (∀ m ∈ l, m ≠ s) →
    (insertSorted s l).Pairwise (fun a b => strLt a b = true) := by
  intro l
  induction l with
  | nil => intro _ _; simp [insertSorted]
  | cons t ts ih =>
    intro hp hs
    rw [List.pairwise_cons] at hp
    obtain ⟨ht, hts⟩ := hp
    simp only [insertSorted]
    split
    · rename_i hlt
      rw [List.pairwise_cons]
      refine ⟨?_, List.pairwise_cons.mpr ⟨ht, hts⟩⟩
      intro b hb
      rcases List.mem_cons.mp hb with rfl | hb2
      · exact hlt
      · exact strLt_trans hlt (ht b hb2)
    · rename_i hnlt
      rw [List.pairwise_cons]
      constructor
      · intro b hb
        rcases mem_insertSorted.mp hb with rfl | hb2
        · exact strLt_flip (Bool.eq_false_iff.mpr hnlt) (hs t (by simp))
        · exact ht b hb2
      · exact ih hts (fun m hm => hs m (by simp [hm]))

theorem pairwise_sortStrings : ∀ {l : List String}, l.Nodup →
    (sortStrings l).Pairwise (fun a b => strLt a b = true) := by
  intro l
  induction l with
  | nil => intro _; simp [sortStrings]
  | cons t ts ih =>
    intro hnd
    rw [List.nodup_cons] at hnd
    show (insertSorted t (sortStrings ts)).Pairwise _
    refine pairwise_insertSorted (ih hnd.2) ?_
    intro m hm he
    exact hnd.1 (he ▸ mem_sortStrings.mp hm)

theorem nodup_sortStrings {l : List String} (hnd : l.Nodup) :
    (sortStrings l).Nodup := by
  have hp := pairwise_sortStrings hnd
  exact hp.imp (fun h => strLt_ne h)

theorem sortStrings_eq_cons {l : List String} {s : String} (hnd : l.Nodup)
    (hmem : s ∈ l) (hlt : ∀ m ∈ l, m ≠ s → strLt s m = true) :
    ∃ rest, sortStrings l = s :: rest ∧ s ∉ rest := by
  have hp := pairwise_sortStrings hnd
  have hm : s ∈ sortStrings l := mem_sortStrings.mpr hmem
  match h : sortStrings l with
  | [] => rw [h] at hm; simp at hm
  | t :: rest =>
    rw [h] at hm hp
    rw [List.pairwise_cons] at hp
    by_cases hts : t = s
    · subst hts
      refine ⟨rest, rfl, ?_⟩
      intro hsr
      exact strLt_ne (hp.1 t hsr) rfl
    · exfalso
      have hsr : s ∈ rest := by
        rcases List.mem_cons.mp hm with h1 | h1
        · exact absurd h1.symm hts
        · exact h1
      have h1 : strLt t s = true := hp.1 s hsr
      have h2 : strLt s t = true := by
        refine hlt t ?_ hts
        have : t ∈ sortStrings l := by rw [h]; simp
        exact mem_sortStrings.mp this
      exact strLt_ne (strLt_trans h1 h2) rfl

/-! ## Lemmas about the filesystem model -/

theorem fsGet_fsSet_self : ∀ (fs : FS) (n : String) (v : List Nat),
    fsGet (fsSet fs n v) n = some v := by
  intro fs n v
  induction fs with
  | nil => simp [fsSet, fsGet]
  | cons e rest ih =>
    obtain ⟨k, c⟩ := e
    simp only [fsSet]
    by_cases h : k = n
    · simp [h, fsGet]
    · simp [h, fsGet, ih]

theorem fsGet_fsSet_ne : ∀ (fs : FS) (n m : String) (v : List Nat),
    m ≠ n → fsGet (fsSet fs n v) m = fsGet fs m := by
  intro fs n m v hne
  induction fs with
  | nil =>
    show fsGet [(n, v)] m = none
    unfold fsGet
    rw [if_neg (fun h => hne h.symm)]
    rfl
  | cons e rest ih =>
    obtain ⟨k, c⟩ := e
    show fsGet (if k = n then (n, v) :: rest else (k, c) :: fsSet rest n v) m = _
    by_cases h : k = n
    · rw [if_pos h]
      subst h
      unfold fsGet
      rw [if_neg (fun h2 => hne h2.symm), if_neg (fun h2 => hne h2.symm)]
    · rw [if_neg h]
      unfold fsGet
      by_cases h2 : k = m
      · rw [if_pos h2, if_pos h2]
      · rw [if_neg h2, if_neg h2, ih]

theorem mem_fsKeys_fsSet : ∀ (fs : FS) (n m : String) (v : List Nat),
    m ∈ fsKeys (fsSet fs n v) ↔ m = n ∨ m ∈ fsKeys fs := by
  intro fs n m v
  induction fs with
  | nil => simp [fsSet, fsKeys]
  | cons e rest ih =>
    obtain ⟨k, c⟩ := e
    show m ∈ fsKeys (if k = n then (n, v) :: rest else (k, c) :: fsSet rest n v) ↔ _
    by_cases h : k = n
    · rw [if_pos h]
      subst h
      simp only [fsKeys, List.map_cons, List.mem_cons]
      tauto
    · rw [if_neg h]
      simp only [fsKeys, List.map_cons, List.mem_cons] at ih ⊢
      rw [ih]
      tauto

theorem fsGet_isSome_iff : ∀ (fs : FS) (m : String),
    (fsGet fs m).isSome = true ↔ m ∈ fsKeys fs := by
  intro fs m
  induction fs with
  | nil => simp [fsGet, fsKeys]
  | cons e rest ih =>
    obtain ⟨k, c⟩ := e
    simp only [fsGet, fsKeys, List.map_cons, List.mem_cons]
    by_cases h : k = m
    · simp [h]
    · rw [if_neg h]
      simp only [fsKeys] at ih
      rw [ih]
      constructor
      · exact Or.inr
      · intro h2
        rcases h2 with h2 | h2
        · exact absurd h2.symm h
        · exact h2

theorem keysNodup_fsSet {fs : FS} (n : String) (v : List Nat)
    (hnd : keysNodup fs) : keysNodup (fsSet fs n v) := by
  induction fs with
  | nil => simp [fsSet, keysNodup, fsKeys]
  | cons e rest ih =>
    obtain ⟨k, c⟩ := e
    unfold keysNodup fsKeys at hnd
    simp only [List.map_cons, List.nodup_cons] at hnd
    obtain ⟨hk, hrest⟩ := hnd
    show keysNodup (if k = n then (n, v) :: rest else (k, c) :: fsSet rest n v)
    by_cases h : k = n
    · rw [if_pos h]
      subst h
      unfold keysNodup fsKeys
      simp only [List.map_cons, List.nodup_cons]
      exact ⟨hk, hrest⟩
    · rw [if_neg h]
      unfold keysNodup fsKeys
      simp only [List.map_cons, List.nodup_cons]
      constructor
      · intro hmem
        rcases (mem_fsKeys_fsSet rest n k v).mp hmem with h2 | h2
        · exact h h2
        · exact hk h2
      · exact ih hrest

theorem fsGet_isSome_fsSet {fs : FS} {n m : String} {v : List Nat}
    (h : (fsGet (fsSet fs n v) m).isSome = true) :
    m = n ∨ (fsGet fs m).isSome = true := by
  rw [fsGet_isSome_iff] at h
  rcases (mem_fsKeys_fsSet fs n m v).mp h with h2 | h2
  · exact Or.inl h2
  · exact Or.inr ((fsGet_isSome_iff fs m).mpr h2)

/-! ## Lemmas about glob matching -/

theorem isPrefixOf_refl : ∀ l : List Char, l.isPrefixOf l = true := by
  intro l
  induction l with
  | nil => rfl
  | cons a as ih => simp [List.isPrefixOf, ih]

theorem globMatch_self (p : String) : globMatch p p = true := by
  unfold globMatch
  rw [isPrefixOf_refl, List.drop_length]
  rfl

theorem mem_globFiles {fs : FS} {path m : String} :
    m ∈ globFiles fs path ↔ m ∈ fsKeys fs ∧ globMatch path m = true := by
  unfold globFiles
  rw [mem_sortStrings, List.mem_filter]

theorem globFiles_nodup {fs : FS} (path : String) (hnd : keysNodup fs) :
    (globFiles fs path).Nodup :=
  nodup_sortStrings (List.Nodup.filter _ hnd)

theorem strLt_of_globMatch {p m : String} (h : globMatch p m = true)
    (hne : m ≠ p) : strLt p m = true := by
  unfold globMatch at h
  rw [Bool.and_eq_true] at h
  exact strLtB_of_isPrefixOf h.1 (fun h2 => hne (strDataInj h2).symm)

theorem mem_globFiles_isSome {fs : FS} {path m : String}
    (h : m ∈ globFiles fs path) : (fsGet fs m).isSome = true :=
  (fsGet_isSome_iff fs m).mpr (mem_globFiles.mp h).1

theorem self_mem_globFiles {fs : FS} {path : String} {c : List Nat}
    (hc : fsGet fs path = some c) : path ∈ globFiles fs path := by
  rw [mem_globFiles]
  refine ⟨?_, globMatch_self path⟩
  rw [← fsGet_isSome_iff, hc]
  rfl

theorem globFiles_eq_cons {fs : FS} {path : String} {c : List Nat}
    (hnd : keysNodup fs) (hc : fsGet fs path = some c) :
    ∃ rest, globFiles fs path = path :: rest ∧ path ∉ rest := by
  unfold globFiles
  refine sortStrings_eq_cons (List.Nodup.filter _ hnd) ?_ ?_
  · have := self_mem_globFiles hc
    unfold globFiles at this
    rwa [mem_sortStrings] at this
  · intro m hm hne
    exact strLt_of_globMatch (List.mem_filter.mp hm).2 hne

/-! ## String-append helper lemmas -/

theorem append_dot_ne_self (s t : String) : s ++ "." ++ t ≠ s := by
  intro h
  have h2 := congrArg String.length h
  rw [String.length_append, String.length_append] at h2
  have : ("." : String).length = 1 := rfl
  omega

theorem self_ne_append_zip (s : String) : s ++ ".zip" ≠ s := by
  intro h
  have h2 := congrArg String.length h
  rw [String.length_append] at h2
  have : (".zip" : String).length = 4 := rfl
  omega

theorem copyFile_eq {fs out : FS} {src dst : String}
    (h : copyFile fs src dst = some out) :
    ∃ c, fsGet fs src = some c ∧ out = fsSet fs dst c := by
  unfold copyFile at h
  cases hg : fsGet fs src with
  | none => rw [hg] at h; exact absurd h (by simp)
  | some c =>
    rw [hg] at h
    simp only [Option.map_some'] at h
    exact ⟨c, rfl, (Option.some.injEq _ _ ▸ h).symm⟩

theorem shiftLoop_isSome (files : List String) (name : String) :
    ∀ (n : Nat) (fs out : FS), shiftLoop files fs n = some out →
    (fsGet out name).isSome = true →
    (fsGet fs name).isSome = true ∨
      ∃ i, 1 ≤ i ∧ i ≤ n ∧ files.getD i "" = name := by
  intro n
  induction n with
  | zero =>
    intro fs out h hsome
    simp only [shiftLoop] at h
    injection h with h2
    rw [← h2] at hsome
    exact Or.inl hsome
  | succ n ih =>
    intro fs out h hsome
    simp only [shiftLoop] at h
    cases hcf : copyFile fs (files.getD n "") (files.getD (n + 1) "") with
    | none => rw [hcf] at h; exact absurd h (by simp)
    | some fs2 =>
      rw [hcf] at h
      obtain ⟨c, _, rfl⟩ := copyFile_eq hcf
      rcases ih _ _ h hsome with h2 | ⟨i, h1, h2, h3⟩
      · rcases fsGet_isSome_fsSet h2 with h3 | h3
        · exact Or.inr ⟨n + 1, by omega, le_refl _, h3.symm⟩
        · exact Or.inl h3
      · exact Or.inr ⟨i, h1, Nat.le_succ_of_le h2, h3⟩

theorem shiftLoop_keysNodup (files : List String) :
    ∀ (n : Nat) (fs out : FS), shiftLoop files fs n = some out →
    keysNodup fs → keysNodup out := by
  intro n
  induction n with
  | zero =>
    intro fs out h hnd
    simp only [shiftLoop] at h
    injection h with h2
    rw [← h2]
    exact hnd
  | succ n ih =>
    intro fs out h hnd
    simp only [shiftLoop] at h
    cases hcf : copyFile fs (files.getD n "") (files.getD (n + 1) "") with
    | none => rw [hcf] at h; exact absurd h (by simp)
    | some fs2 =>
      rw [hcf] at h
      obtain ⟨c, _, rfl⟩ := copyFile_eq hcf
      exact ih _ _ h (keysNodup_fsSet _ _ hnd)

theorem shiftLoop_last (files : List String) :
    ∀ (n : Nat) (fs out : FS), shiftLoop files fs (n + 1) = some out →
    ∃ mid, copyFile mid (files.getD 0 "") (files.getD 1 "") = some out ∧
      ∀ name, (∀ i, 2 ≤ i → i ≤ n + 1 → files.getD i "" ≠ name) →
        fsGet mid name = fsGet fs name := by
  intro n
  induction n with
  | zero =>
    intro fs out h
    simp only [shiftLoop] at h
    cases hcf : copyFile fs (files.getD 0 "") (files.getD 1 "") with
    | none => rw [hcf] at h; exact absurd h (by simp)
    | some fs2 =>
      rw [hcf] at h
      simp only [shiftLoop] at h
      refine ⟨fs, ?_, fun name _ => rfl⟩
      rw [hcf, h]
  | succ n ih =>
    intro fs out h
    simp only [shiftLoop] at h
    cases hcf : copyFile fs (files.getD (n + 1) "") (files.getD (n + 2) "") with
    | none => rw [hcf] at h; exact absurd h (by simp)
    | some fs2 =>
      rw [hcf] at h
      obtain ⟨mid, hcopy, hpres⟩ := ih fs2 out h
      refine ⟨mid, hcopy, ?_⟩
      intro name hname
      rw [hpres name (fun i h1 h2 => hname i h1 (Nat.le_succ_of_le h2))]
      obtain ⟨c, _, rfl⟩ := copyFile_eq hcf
      exact fsGet_fsSet_ne _ _ _ _
        (fun he => hname (n + 2) (by omega) (le_refl _) he.symm)

/-! ## Lemmas about `mess_up_file` and `rotFiles` -/

theorem mess_up_id_of_missing {fs : FS} {filename : String}
    (hb : fsGet fs filename = none) :
    mess_up_file fs filename = fs := by
  unfold mess_up_file
  simp only [hb]

theorem mess_up_eq {fs : FS} {filename : String} {bytes cps : List Nat}
    (hb : fsGet fs filename = some bytes)
    (hd : utf8Decode bytes = some cps) :
    mess_up_file fs filename =
      fsSet fs (filename ++ ".zip")
        (utf8Encode (duplicate_bytes_in_lines cps)) := by
  unfold mess_up_file
  simp only [hb, hd]

theorem mess_up_id_of_invalid {fs : FS} {filename : String} {bytes : List Nat}
    (hb : fsGet fs filename = some bytes)
    (hd : utf8Decode bytes = none) :
    mess_up_file fs filename = fs := by
  unfold mess_up_file
  simp only [hb, hd]

theorem fsGet_mess_up_ne {fs : FS} {filename name : String}
    (h : name ≠ filename ++ ".zip") :
    fsGet (mess_up_file fs filename) name = fsGet fs name := by
  cases hb : fsGet fs filename with
  | none => rw [mess_up_id_of_missing hb]
  | some bytes =>
    cases hd : utf8Decode bytes with
    | none => rw [mess_up_id_of_invalid hb hd]
    | some contents =>
      rw [mess_up_eq hb hd]
      exact fsGet_fsSet_ne _ _ _ _ h

theorem fsGet_ite_mess_up {fs : FS} {filename name : String} (b : Bool)
    (h : name ≠ filename ++ ".zip") :
    fsGet (if b then mess_up_file fs filename else fs) name = fsGet fs name := by
  cases b with
  | false => rfl
  | true => exact fsGet_mess_up_ne h

theorem keysNodup_mess_up {fs : FS} (filename : String)
    (hnd : keysNodup fs) : keysNodup (mess_up_file fs filename) := by
  cases hb : fsGet fs filename with
  | none =>
    rw [mess_up_id_of_missing hb]
    exact hnd
  | some bytes =>
    cases hd : utf8Decode bytes with
    | none =>
      rw [mess_up_id_of_invalid hb hd]
      exact hnd
    | some contents =>
      rw [mess_up_eq hb hd]
      exact keysNodup_fsSet _ _ hnd

theorem rotFiles_eq_cons {fs : FS} {path : String} {c : List Nat}
    (max_files : Nat) (hnd : keysNodup fs) (hc : fsGet fs path = some c) :
    ∃ rest, rotFiles fs path max_files = path :: rest ∧ path ∉ rest := by
  obtain ⟨r0, hr0, hnr0⟩ := globFiles_eq_cons hnd hc
  unfold rotFiles
  rw [hr0]
  by_cases h : (path :: r0).length < max_files
  · rw [if_pos h]
    refine ⟨r0 ++ [path ++ "." ++ toString (path :: r0).length], rfl, ?_⟩
    intro hmem
    rcases List.mem_append.mp hmem with h2 | h2
    · exact hnr0 h2
    · rw [List.mem_singleton] at h2
      exact append_dot_ne_self path _ h2.symm
  · rw [if_neg h]
    exact ⟨r0, rfl, hnr0⟩

theorem mem_rotFiles {fs : FS} {path m : String} (max_files : Nat)
    (h : m ∈ rotFiles fs path max_files) :
    m ∈ globFiles fs path ∨
      (m = path ++ "." ++ toString (globFiles fs path).length ∧
        (globFiles fs path).length < max_files) := by
  unfold rotFiles at h
  by_cases hcond : (globFiles fs path).length < max_files
  · rw [if_pos hcond] at h
    rcases List.mem_append.mp h with h2 | h2
    · exact Or.inl h2
    · rw [List.mem_singleton] at h2
      exact Or.inr ⟨h2, hcond⟩
  · rw [if_neg hcond] at h
    exact Or.inl h

theorem getD_mem_of_lt {l : List String} {i : Nat} (h : i < l.length) :
    l.getD i "" ∈ l := by
  rw [List.getD_eq_getElem l "" h]
  exact List.getElem_mem h

theorem rotFiles_length_ge {fs : FS} {path : String} (max_files : Nat) :
    (globFiles fs path).length ≤ (rotFiles fs path max_files).length := by
  unfold rotFiles
  by_cases h : (globFiles fs path).length < max_files
  · rw [if_pos h]
    simp
  · rw [if_neg h]

/-- Inversion of `rotate_file` on a non-empty match set: exposes the
intermediate filesystem after the copy loop and the strategy branch. -/
theorem rotate_file_inv {fs out : FS} {path strategy : String}
    {max_files : Nat} {compress : Bool}
    (h : rotate_file fs path max_files strategy compress = some out)
    (hne : (globFiles fs path).length ≠ 0) :
    ∃ fs2, shiftLoop (rotFiles fs path max_files)
        (if compress && decide (max_files ≤ (globFiles fs path).length) then
          mess_up_file fs path
        else fs)
        ((rotFiles fs path max_files).length - 1) = some fs2 ∧
      ((STRATEGY strategy = some RotationStrategy.CopyTruncate ∧
          out = fsSet fs2 path []) ∨
        (STRATEGY strategy = some RotationStrategy.Copy ∧ out = fs2)) := by
  unfold rotate_file at h
  rw [if_neg hne] at h
  cases hsl : shiftLoop (rotFiles fs path max_files)
      (if compress && decide (max_files ≤ (globFiles fs path).length) then
        mess_up_file fs path
      else fs)
      ((rotFiles fs path max_files).length - 1) with
  | none => rw [hsl] at h; exact absurd h (by simp)
  | some fs2 =>
    rw [hsl] at h
    refine ⟨fs2, rfl, ?_⟩
    cases hst : STRATEGY strategy with
    | none => rw [hst] at h; exact absurd h (by simp)
    | some st =>
      rw [hst] at h
      cases st with
      | CopyTruncate =>
        exact Or.inl ⟨rfl, (Option.some.injEq _ _ ▸ h).symm⟩
      | Copy =>
        exact Or.inr ⟨rfl, (Option.some.injEq _ _ ▸ h).symm⟩

/-- A duplicate-free list is no longer than any list containing it. -/
theorem nodup_subset_length {l l' : List String} (h : l.Nodup)
    (hs : l ⊆ l') : l.length ≤ l'.length := by
  calc l.length = l.toFinset.card := (List.toFinset_card_of_nodup h).symm
    _ ≤ l'.toFinset.card := by
        apply Finset.card_le_card
        intro x hx
        rw [List.mem_toFinset] at hx ⊢
        exact hs hx
    _ ≤ l'.length := List.toFinset_card_le l'

/-! ## Helper for the state-store load -/

theorem mapM_parseRow_all2 : ∀ (rows : List (List String)),
    (∀ r ∈ rows, r.length = 2) → ∃ l, rows.mapM parseRow = some l := by
  intro rows
  induction rows with
  | nil => exact fun _ => ⟨[], rfl⟩
  | cons r rs ih =>
    intro h
    obtain ⟨l, hl⟩ := ih (fun x hx => h x (List.mem_cons_of_mem _ hx))
    have hr : r.length = 2 := h r (by simp)
    match r, hr with
    | [a, b], _ =>
      refine ⟨(a, b) :: l, ?_⟩
      rw [List.mapM_cons]
      have hp : parseRow [a, b] = some (a, b) := rfl
      rw [hp, hl]
      rfl

/-! ## Claim theorems -/

/-- C4: for every interval, lastRotationTime and now, the time-based
trigger fires iff `now >= lastRotationTime + intervalDuration interval`
(boundary equality counts as due), where the durations are 1 hour, 24
hours, 7 days and a fixed 30 days, and `now` is truncated to second
precision (`Utc::now().timestamp()`, floor to seconds) before the
comparison. -/
theorem C4_time_trigger (rotation_time : Int) (interval : String)
    (i : RotationInterval) (nowNs : Int)
    (hi : INTERVALS interval = some i) :
    (is_rotation_triggered_on_time rotation_time interval nowNs = some true ↔
      rotation_time + intervalDuration i ≤ nowNs.fdiv 1000000000) ∧
    intervalDuration RotationInterval.Hourly = 3600 ∧
    intervalDuration RotationInterval.Daily = 24 * 3600 ∧
    intervalDuration RotationInterval.Weekly = 7 * 24 * 3600 ∧
    intervalDuration RotationInterval.Monthly = 30 * 24 * 3600 := by
  refine ⟨?_, by decide, by decide, by decide, by decide⟩
  unfold is_rotation_triggered_on_time
  rw [hi, Option.map_some', Option.some.injEq, decide_eq_true_iff]
  omega

/-- Witness for C4: one day after a rotation at the epoch, a daily target
is due. -/
theorem C4_witness :
    is_rotation_triggered_on_time 0 "daily" (86400 * 1000000000) = some true :=
  ((C4_time_trigger 0 "daily" RotationInterval.Daily
    (86400 * 1000000000) rfl).1).mpr (by decide)

/-- C5: the size trigger fires iff the current size is strictly greater
than the threshold (equality does not trigger), and a missing file is a
fatal error (modelled as `none`, the `expect` panic) rather than a skip. -/
theorem C5_size_trigger (fs : FS) (path : String) (size : Nat) :
    (∀ c, fsGet fs path = some c →
      (is_rotation_triggered_due_to_size fs path size = some true ↔
        size < c.length)) ∧
    (fsGet fs path = none →
      is_rotation_triggered_due_to_size fs path size = none) := by
  unfold is_rotation_triggered_due_to_size
  constructor
  · intro c hc
    rw [hc, Option.map_some', Option.some.injEq, decide_eq_true_iff]
  · intro h
    rw [h]
    rfl

/-- Witness for C5: a 2-byte file with threshold 1 triggers; threshold 2
(equality) does not; a missing file is fatal. -/
theorem C5_witness :
    is_rotation_triggered_due_to_size [("a", [1, 2])] "a" 1 = some true ∧
    is_rotation_triggered_due_to_size [] "a" 1 = none :=
  ⟨((C5_size_trigger [("a", [1, 2])] "a" 1).1 [1, 2] rfl).mpr (by decide),
   (C5_size_trigger [] "a" 1).2 rfl⟩

/-- C8: when the pattern `path ++ "*"` matches no existing file,
`rotate_file` returns without error and without touching the
filesystem. -/
theorem C8_noop (fs : FS) (path : String) (max_files : Nat)
    (strategy : String) (compress : Bool)
    (h : globFiles fs path = []) :
    rotate_file fs path max_files strategy compress = some fs := by
  unfold rotate_file
  rw [h]
  rfl

/-- Witness for C8: a filesystem holding only an unrelated file is
returned unchanged. -/
theorem C8_witness :
    rotate_file [("b", [1])] "a" 3 "copy" false = some [("b", [1])] :=
  C8_noop [("b", [1])] "a" 3 "copy" false (by decide)

/-- C9: for every store state and every path absent from it,
`last_rotation_time` returns the sentinel timestamp 1999-01-01 01:02:03
without panicking, and that sentinel is far enough in the past that every
interval check fires against any clock from 2000-01-01 on. -/
theorem C9_sentinel_default (r : RotationRecorder) (path : String)
    (h : entriesGet r.entries path = none) :
    r.last_rotation_time path = some sentinelTime ∧
    ∀ interval i nowNs, INTERVALS interval = some i →
      946684800 * 1000000000 ≤ nowNs →
      is_rotation_triggered_on_time sentinelTime interval nowNs = some true := by
  constructor
  · unfold RotationRecorder.last_rotation_time
    rw [h]
  · intro interval i nowNs hi hnow
    unfold is_rotation_triggered_on_time
    rw [hi, Option.map_some', Option.some.injEq, decide_eq_true_iff]
    have hfd : (946684800 : Int) ≤ nowNs.fdiv 1000000000 := by
      rw [Int.fdiv_eq_ediv _ (by norm_num), Int.le_ediv_iff_mul_le (by norm_num)]
      exact hnow
    have hs : sentinelTime = 915152523 := by decide
    cases i <;> rw [hs] <;> simp only [intervalDuration] <;> omega

/-- Witness for C9: a store holding only "x" resolves "y" to the sentinel,
and the sentinel triggers a monthly rotation in October 2026. -/
theorem C9_witness :
    (RotationRecorder.mk [("x", "t")] false).last_rotation_time "y" =
      some sentinelTime ∧
    is_rotation_triggered_on_time sentinelTime "monthly"
      1791819000000000000 = some true := by
  have h := C9_sentinel_default (RotationRecorder.mk [("x", "t")] false) "y"
    (by decide)
  exact ⟨h.1, h.2 "monthly" RotationInterval.Monthly 1791819000000000000
    rfl (by decide)⟩

/-- C10: a record whose timestamp string does not parse in the format
"%Y-%m-%d %H:%M" loads fine (loading never validates timestamp contents),
and `last_rotation_time` then panics on it (the `unwrap()` of the failed
parse, modelled as `none`) instead of returning a timestamp. -/
theorem C10_unvalidated_row_panics :
    RotationRecorder.new (some [["path", "last_rotation"], ["f", "oops"]]) =
      some (RotationRecorder.mk [("f", "oops")] false) ∧
    (RotationRecorder.mk [("f", "oops")] false).last_rotation_time "f" =
      none := by
  exact ⟨rfl, rfl⟩

/-- C1: the dirty-flag logic of `save` is inverted in the source, exactly
opposite to the claim and to the function's own doc comment: after
`update_rotation_time` (store mutated, `updated = true`) `save` returns
`Ok` immediately and writes nothing, leaving the store file stale, while
a never-mutated store is rewritten in full. -/
theorem C1_save_inverted :
    (((RotationRecorder.mk [] false).update_rotation_time "a" 0).save
      (some [["stale"]]) = some [["stale"]]) ∧
    ((RotationRecorder.mk [] false).update_rotation_time "a" 0).updated =
      true ∧
    (RotationRecorder.mk [("p", "t")] false).save none =
      some [["path", "last_rotation"], ["p", "t"]] :=
  ⟨rfl, rfl, rfl⟩

/-- C3 counterexample: a missing state file is fatal
(`RotationRecorder::new` returns the propagated error, `main` exits 1),
and so is a single malformed row — the claim's non-fatal treatment does
not hold at either input. -/
theorem C3_counterexample :
    RotationRecorder.new none = none ∧
    RotationRecorder.new
      (some [["path", "last_rotation"], ["a", "b", "c"]]) = none :=
  ⟨rfl, rfl⟩

/-- C3 amended: a missing state file or any malformed row is fatal for
the whole load; only a store whose data rows all carry exactly two fields
(matching the header) loads, and then the load completes in full. -/
theorem C3_load_strictness (header : List String) (rows : List (List String))
    (hh : header.length = 2) (hr : ∀ r ∈ rows, r.length = 2) :
    RotationRecorder.new none = none ∧
    ∃ rec, RotationRecorder.new (some (header :: rows)) = some rec ∧
      rec.updated = false := by
  refine ⟨rfl, ?_⟩
  have hall : rows.all (fun r => r.length = header.length) = true := by
    rw [List.all_eq_true]
    intro x hx
    rw [decide_eq_true_iff, hr x hx, hh]
  obtain ⟨l, hl⟩ := mapM_parseRow_all2 rows hr
  have hred : RotationRecorder.new (some (header :: rows)) =
      (if rows.all (fun r => r.length = header.length) then
        (rows.mapM parseRow).map (fun prs =>
          ⟨prs.foldl (fun es pt => entriesInsert es pt.1 pt.2) [], false⟩)
      else none) := rfl
  rw [hred, if_pos hall, hl, Option.map_some']
  exact ⟨_, rfl, rfl⟩

/-- Witness for C3: a two-column store with one well-formed row loads. -/
theorem C3_witness :
    RotationRecorder.new none = none ∧
    ∃ rec, RotationRecorder.new
        (some [["path", "last_rotation"], ["a", "1999-01-01 01:02"]]) =
      some rec ∧ rec.updated = false :=
  C3_load_strictness ["path", "last_rotation"] [["a", "1999-01-01 01:02"]]
    (by decide) (by decide)

/-- C2 counterexample: with `maxGenerations = 1`, a live file "a" and the
transform enabled, one rotation leaves two files matching the pattern
("a" and the transform output "a.zip", which itself matches `a*`) — the
matched set exceeds the cap. -/
theorem C2_counterexample :
    rotate_file [("a", [104])] "a" 1 "copytruncate" true =
      some [("a", []), ("a.zip", [104, 104])] ∧
    (globFiles [("a", []), ("a.zip", [104, 104])] "a").length = 2 ∧
    ¬ (globFiles [("a", []), ("a.zip", [104, 104])] "a").length ≤ 1 :=
  ⟨by decide, by decide, by decide⟩

/-- C6: after a successful rotation of a target whose strategy maps to
CopyTruncate, the live file at `path` exists with length 0, and
generation 1 — the entry at index 1 of the sorted generation chain, the
lexicographically next matched name — holds exactly the bytes the live
file held immediately before the rotation.  Hypotheses record the
claim's presuppositions: the live file exists beforehand and the chain
has a slot 1 at all. -/
theorem C6_copytruncate (fs out : FS) (path strategy : String)
    (max_files : Nat) (compress : Bool) (c : List Nat)
    (hnd : keysNodup fs) (hc : fsGet fs path = some c)
    (hst : STRATEGY strategy = some RotationStrategy.CopyTruncate)
    (hlen : 2 ≤ (rotFiles fs path max_files).length)
    (hout : rotate_file fs path max_files strategy compress = some out) :
    fsGet out path = some [] ∧
    fsGet out ((rotFiles fs path max_files).getD 1 "") = some c := by
  have hmem0 : path ∈ globFiles fs path := self_mem_globFiles hc
  have hne0 : (globFiles fs path).length ≠ 0 := by
    intro h0
    rw [List.length_eq_zero] at h0
    rw [h0] at hmem0
    exact List.not_mem_nil path hmem0
  obtain ⟨fs2, hsl, hbr⟩ := rotate_file_inv hout hne0
  rcases hbr with ⟨_, rfl⟩ | ⟨hst2, _⟩
  swap
  · rw [hst] at hst2
    exact absurd hst2 (by simp)
  obtain ⟨rest, hfiles, hnotin⟩ := rotFiles_eq_cons max_files hnd hc
  obtain ⟨n, hn⟩ : ∃ n, (rotFiles fs path max_files).length - 1 = n + 1 :=
    ⟨(rotFiles fs path max_files).length - 2, by omega⟩
  rw [hn] at hsl
  obtain ⟨mid, hcopy, hpres⟩ := shiftLoop_last _ n _ fs2 hsl
  have hget0 : (rotFiles fs path max_files).getD 0 "" = path := by
    rw [hfiles]
    exact List.getD_cons_zero
  have htail : ∀ i, 1 ≤ i → i ≤ n + 1 →
      (rotFiles fs path max_files).getD i "" ≠ path := by
    intro i h1 h2
    have hilt : i < (rotFiles fs path max_files).length := by omega
    rw [hfiles]
    obtain ⟨j, rfl⟩ : ∃ j, i = j + 1 := ⟨i - 1, by omega⟩
    rw [List.getD_cons_succ]
    intro he
    apply hnotin
    rw [← he]
    apply getD_mem_of_lt
    rw [hfiles] at hilt
    simp only [List.length_cons] at hilt
    omega
  have hz1 : path ≠ path ++ ".zip" := fun he => self_ne_append_zip path he.symm
  have hmidpath : fsGet mid path = some c := by
    rw [hpres path (fun i h1 h2 => htail i (by omega) h2),
      fsGet_ite_mess_up _ hz1]
    exact hc
  obtain ⟨c2, hmc, rfl⟩ := copyFile_eq hcopy
  rw [hget0, hmidpath] at hmc
  have hcc : c = c2 := by injection hmc
  subst hcc
  have h1ne : (rotFiles fs path max_files).getD 1 "" ≠ path :=
    htail 1 (le_refl 1) (by omega)
  constructor
  · exact fsGet_fsSet_self _ _ _
  · rw [fsGet_fsSet_ne _ _ _ _ h1ne]
    exact fsGet_fsSet_self _ _ _

/-- Witness for C6: rotating a live file "a" of contents `[1, 2]` with
maxGenerations 2 leaves "a" empty and generation 1 with `[1, 2]`. -/
theorem C6_witness :
    fsGet [("a", []), ("a.1", [1, 2])] "a" = some [] ∧
    fsGet [("a", []), ("a.1", [1, 2])]
      ((rotFiles [("a", [1, 2])] "a" 2).getD 1 "") = some [1, 2] :=
  C6_copytruncate [("a", [1, 2])] [("a", []), ("a.1", [1, 2])] "a"
    "copytruncate" 2 false [1, 2] (by decide) rfl rfl (by decide) (by decide)

/-- C2 amended: provided the live file exists, the matched count does not
already exceed maxGenerations, and the transform does not fire, a
rotation keeps the matched-file count at most maxGenerations, and every
file present afterwards was already present or is the one synthesized
slot `path ++ "." ++ count`, which is created only when the matched
count was strictly below maxGenerations.  (The claim as frozen — with
rotations where the transform fires included — is false: the transform
writes `path ++ ".zip"`, which itself matches the pattern and pushes the
matched count to maxGenerations + 1; see the counterexample.) -/
theorem C2_generation_cap (fs out : FS) (path strategy : String)
    (max_files : Nat) (compress : Bool) (c : List Nat)
    (hnd : keysNodup fs) (hc : fsGet fs path = some c)
    (hcap : (globFiles fs path).length ≤ max_files)
    (hnt : (compress &&
      decide (max_files ≤ (globFiles fs path).length)) = false)
    (hout : rotate_file fs path max_files strategy compress = some out) :
    (globFiles out path).length ≤ max_files ∧
    ∀ n, (fsGet out n).isSome = true →
      (fsGet fs n).isSome = true ∨
        (n = path ++ "." ++ toString (globFiles fs path).length ∧
          (globFiles fs path).length < max_files) := by
  have hmem0 : path ∈ globFiles fs path := self_mem_globFiles hc
  have hne0 : (globFiles fs path).length ≠ 0 := by
    intro h0
    rw [List.length_eq_zero] at h0
    rw [h0] at hmem0
    exact List.not_mem_nil path hmem0
  obtain ⟨fs2, hsl, hbr⟩ := rotate_file_inv hout hne0
  have hcond' : ¬((compress &&
      decide (max_files ≤ (globFiles fs path).length)) = true) := by
    rw [hnt]
    simp
  rw [if_neg hcond'] at hsl
  have hkey : ∀ n, (fsGet out n).isSome = true →
      (fsGet fs n).isSome = true ∨
        (n = path ++ "." ++ toString (globFiles fs path).length ∧
          (globFiles fs path).length < max_files) := by
    intro n hn
    have hn2 : (fsGet fs2 n).isSome = true ∨ n = path := by
      rcases hbr with ⟨_, rfl⟩ | ⟨_, rfl⟩
      · rcases fsGet_isSome_fsSet hn with h2 | h2
        · exact Or.inr h2
        · exact Or.inl h2
      · exact Or.inl hn
    rcases hn2 with hn2 | rfl
    · rcases shiftLoop_isSome _ n _ _ _ hsl hn2 with h2 | ⟨i, h1, h2, h3⟩
      · exact Or.inl h2
      · have hilt : i < (rotFiles fs path max_files).length := by omega
        have hmem := getD_mem_of_lt hilt
        rw [h3] at hmem
        rcases mem_rotFiles max_files hmem with hg | hsy
        · exact Or.inl (mem_globFiles_isSome hg)
        · exact Or.inr hsy
    · left
      rw [fsGet_isSome_iff]
      exact (mem_globFiles.mp hmem0).1
  refine ⟨?_, hkey⟩
  have hndout : keysNodup out := by
    have hnd2 : keysNodup fs2 := shiftLoop_keysNodup _ _ _ _ hsl hnd
    rcases hbr with ⟨_, rfl⟩ | ⟨_, rfl⟩
    · exact keysNodup_fsSet _ _ hnd2
    · exact hnd2
  have hsub : ∀ m ∈ globFiles out path,
      m ∈ globFiles fs path ∨
        (m = path ++ "." ++ toString (globFiles fs path).length ∧
          (globFiles fs path).length < max_files) := by
    intro m hm
    have hsome : (fsGet out m).isSome = true := mem_globFiles_isSome hm
    rcases hkey m hsome with h2 | h2
    · left
      rw [mem_globFiles]
      exact ⟨(fsGet_isSome_iff fs m).mp h2, (mem_globFiles.mp hm).2⟩
    · exact Or.inr h2
  by_cases hlt : (globFiles fs path).length < max_files
  · have hsub2 : globFiles out path ⊆
        globFiles fs path ++
          [path ++ "." ++ toString (globFiles fs path).length] := by
      intro m hm
      rcases hsub m hm with h2 | ⟨rfl, _⟩
      · exact List.mem_append_left _ h2
      · exact List.mem_append_right _ (List.mem_singleton.mpr rfl)
    have hle := nodup_subset_length (globFiles_nodup path hndout) hsub2
    rw [List.length_append, List.length_singleton] at hle
    omega
  · have hsub2 : globFiles out path ⊆ globFiles fs path := by
      intro m hm
      rcases hsub m hm with h2 | ⟨_, h2⟩
      · exact h2
      · exact absurd h2 hlt
    have hle := nodup_subset_length (globFiles_nodup path hndout) hsub2
    omega

/-- Witness for C2: rotating "a" with one backup and cap 3 yields three
matched files (at the cap), and the name "a.2" present afterwards is
exactly the synthesized slot. -/
theorem C2_witness :
    (globFiles [("a", []), ("a.0", [1]), ("a.2", [2])] "a").length ≤ 3 ∧
    ((fsGet [("a", []), ("a.0", [1]), ("a.2", [2])] "a.2").isSome = true →
      (fsGet [("a", [1]), ("a.0", [2])] "a.2").isSome = true ∨
        ("a.2" = "a" ++ "." ++
            toString (globFiles [("a", [1]), ("a.0", [2])] "a").length ∧
          (globFiles [("a", [1]), ("a.0", [2])] "a").length < 3)) := by
  constructor
  · exact (C2_generation_cap [("a", [1]), ("a.0", [2])]
      [("a", []), ("a.0", [1]), ("a.2", [2])] "a" "copytruncate" 3 false [1]
      (by decide) rfl (by decide) (by decide) (by decide)).1
  · exact (C2_generation_cap [("a", [1]), ("a.0", [2])]
      [("a", []), ("a.0", [1]), ("a.2", [2])] "a" "copytruncate" 3 false [1]
      (by decide) rfl (by decide) (by decide) (by decide)).2 "a.2"

end Funrotate
